import Mathlib

/-!
Verification development for the hotdog per-connection log-processing
pipeline (src/src/main.rs). The stateful rule loop of connection_loop is
embedded as explicit state passing over pure Lean functions. External
collaborators (the regex engine, the handlebars template renderer, the
serde_json parser/serializer, the Kafka producer) are modelled as abstract
functions supplied through a Regex record and an Env record; a publish is
recorded as an event instead of performing IO.
-/

set_option autoImplicit false

namespace Hotdog

/-- Tree-shaped structured-data values (the serde_json Value type the code
merges and serializes). Objects are ordered association lists of
key-value pairs, as JSON objects with unique keys. -/
inductive JValue where
  | null
  | bool (b : Bool)
  | num (n : Int)
  | str (s : String)
  | arr (xs : List JValue)
  | obj (kvs : List (String × JValue))

/-- Returns true exactly on object values. -/
def isObj : JValue → Bool
  | JValue.obj _ => true
  | _ => false

/-- First value stored under key k in an association list, if any. -/
def lookupKey (k : String) : List (String × JValue) → Option JValue
  | [] => none
  | (k1, v1) :: t => if k1 = k then some v1 else lookupKey k t

mutual

/-- Modelled from the spec: the file src/merge.rs (module merge, function
merge) is not present under src/, only its caller is. Following section 4.4
of the spec: when base and patch are both objects the merge proceeds
recursively key by key; when the patch value is not an object it replaces
the base value entirely. The remaining case, an object patch against a
non-object base, is left open by the spec wording and is completed here
with the same replacement default, the only uniform completion consistent
with the glossary (object keys merged, scalars and sequences replaced).
The in-place mutation of base is rendered functionally: the result is the
merged value. -/
def merge : JValue → JValue → JValue
  | JValue.obj a, JValue.obj b => JValue.obj (mergeIntoList a b)
  | _, patch => patch
termination_by _ patch => (sizeOf patch, 1, 0)

/-- Folds the patch object's pairs into the base association list, one key
at a time, in patch order. -/
def mergeIntoList (a : List (String × JValue)) : List (String × JValue) → List (String × JValue)
  | [] => a
  | (k, v) :: rest => mergeIntoList (mergeKey a k v) rest
termination_by l => (sizeOf l, 0, 0)

/-- Merges one patch entry into the base association list: a shared key has
the patch value recursively merged into the base value in place (order
preserved); a new key is appended at the end with the patch value. -/
def mergeKey : List (String × JValue) → String → JValue → List (String × JValue)
  | [], k, v => [(k, v)]
  | (k1, v1) :: t, k, v =>
      if k1 = k then (k1, merge v1 v) :: t
      else (k1, v1) :: mergeKey t k v
termination_by a _ v => (sizeOf v, 2, sizeOf a)

end

/-- A capture context: the HashMap of string keys to captured string values
built per rule evaluation in connection_loop, viewed extensionally as a
lookup function. -/
abbrev Ctx := String → Option String

/-- The reserved key under which the full message body is seeded into every
capture context (hash.insert of the string msg in connection_loop). -/
def reservedKey : String := "msg"

/-- Modelled from the spec: the file src/settings.rs defining the Field enum
is not present under src/; main.rs matches only the message-body variant
and handles every other variant with a wildcard arm, so the shape of the
other variants is irrelevant. Variant names follow the metadata set the
spec lists for ParsedMessage. -/
inductive Field where
  | msg
  | hostname
  | appname
  | procid

/-- Modelled from the spec: the Action enum is declared in the missing
src/settings.rs, but its four variants and their payloads are pinned by the
match in connection_loop: Forward carries a topic template, Merge carries a
structured patch value, Replace carries a template, Stop carries nothing. -/
inductive Action where
  | forward (topic : String)
  | merge (json : JValue)
  | replace (template : String)
  | stop

/-- The compiled regex of a rule, modelled as an abstract interface to the
external regex crate: capture_names lists every group of the pattern in
index order (none for the implicit whole-match group and for unnamed
groups, some name for a named group), and captures returns none when the
pattern does not match the input, or the per-name capture lookup when it
does (none for a named group that did not participate in the match). -/
structure Regex where
  capture_names : List (Option String)
  captures : String → Option (String → Option String)

/-- Modelled from the spec: the Rule struct is declared in the missing
src/settings.rs; its three fields are pinned by their uses in
connection_loop (rule.field, rule.regex, rule.actions). -/
structure Rule where
  field : Field
  regex : Regex
  actions : List Action

/-- One record published to the broker: FutureRecord::to(rendered) with
payload and key both taken from the output buffer. -/
structure Published where
  topic : String
  payload : String
  key : String
deriving DecidableEq

/-- Log events emitted inside the action loop of connection_loop:
the info event of a successful Forward render, the debug event of a
successful Merge, and the error event of a Merge whose body failed to
parse. Debug tracing outside the action loop is not modelled. -/
inductive LogEvent where
  | forwardedTo (rendered : String)
  | merged (value : JValue)
  | mergeParseFailed (body : String)

/-- Abstract external collaborators of the action loop: the handlebars
template renderer (render_template, none on a failed render), the
serde_json parser of the message body (none on a parse failure), and the
serde_json serializer of a merged value. -/
structure Env where
  render : String → Ctx → Option String
  parseJson : String → Option JValue
  serialize : JValue → String

/-- State threaded through one rule's action loop: the per-rule output
buffer, the per-line continue_rules flag, and the accumulated publish and
log events of the connection. -/
structure ExecState where
  output : String
  cont : Bool
  pubs : List Published
  logs : List LogEvent

/-- State threaded across rules within one line (and, minus the flag,
across lines): continue_rules plus the accumulated events. -/
structure LineState where
  cont : Bool
  pubs : List Published
  logs : List LogEvent

/-- Inserts one key-value pair into a capture context, overwriting any
previous entry under that key (HashMap::insert). -/
def insertCtx (h : Ctx) (k v : String) : Ctx :=
  fun q => if q = k then some v else h q

/-- The fold step over capture_names in connection_loop: a named group that
captured text is inserted under its declared name; unnamed groups and
non-participating named groups are skipped. -/
def addCapture (caps : String → Option String) (h : Ctx) (n : Option String) : Ctx :=
  match n with
  | some name =>
      match caps name with
      | some value => insertCtx h name value
      | none => h
  | none => h

/-- The capture context built for a matched rule: seeded with the full
message body under the reserved key, then every named participating group
inserted in declaration order. -/
def buildCtx (msg : String) (names : List (Option String)) (caps : String → Option String) : Ctx :=
  names.foldl (addCapture caps) (insertCtx (fun _ => none) reservedKey msg)

/-- The match step of one rule in connection_loop: only the message-body
field variant is wired; on a regex match the capture context is returned,
otherwise (no match, or an unhandled field variant) none. -/
def matchRule (r : Rule) (msg : String) : Option Ctx :=
  match r.field with
  | Field.msg =>
      match r.regex.captures msg with
      | some caps => some (buildCtx msg r.regex.capture_names caps)
      | none => none
  | _ => none

/-- One iteration of the action loop of connection_loop. -/
def execAction (env : Env) (ctx : Ctx) (msg : String) (s : ExecState) : Action → ExecState
  | Action.forward topic =>
      match env.render topic ctx with
      | some rendered =>
          { s with logs := s.logs ++ [LogEvent.forwardedTo rendered],
                   pubs := s.pubs ++ [{ topic := rendered, payload := s.output, key := s.output }] }
      | none => s
  | Action.merge json =>
      match env.parseJson msg with
      | some msgJson =>
          { s with logs := s.logs ++ [LogEvent.merged (merge msgJson json)],
                   output := env.serialize (merge msgJson json) }
      | none =>
          { s with logs := s.logs ++ [LogEvent.mergeParseFailed msg],
                   cont := false }
  | Action.replace template =>
      match env.render template ctx with
      | some rendered => { s with output := rendered }
      | none => s
  | Action.stop => { s with cont := false }

/-- The whole action loop of a matched rule, strictly in configured order. -/
def execActions (env : Env) (ctx : Ctx) (msg : String) (s : ExecState) (actions : List Action) : ExecState :=
  actions.foldl (execAction env ctx msg) s

/-- The per-rule initial execution state: a fresh empty output buffer over
the line's current flag and accumulated events. -/
def ruleInit (st : LineState) : ExecState :=
  { output := "", cont := st.cont, pubs := st.pubs, logs := st.logs }

/-- The line state carried out of a rule: the output buffer is discarded. -/
def postRule (s : ExecState) : LineState :=
  { cont := s.cont, pubs := s.pubs, logs := s.logs }

/-- The rule loop of connection_loop for one line: at the top of every
iteration a cleared continue_rules flag breaks out of the loop; a
non-matching rule is skipped; a matching rule runs its action loop from a
fresh empty output buffer. -/
def processRules (env : Env) (msg : String) : List Rule → LineState → LineState
  | [], st => st
  | r :: rest, st =>
      if st.cont then
        match matchRule r msg with
        | none => processRules env msg rest st
        | some ctx => processRules env msg rest (postRule (execActions env ctx msg (ruleInit st) r.actions))
      else st

/-- One line step of the connection loop: the continue_rules flag is reset
to true before the rule loop runs, while publish and log events accumulate
across lines. -/
def stepLine (env : Env) (rules : List Rule) (st : LineState) (msg : String) : LineState :=
  processRules env msg rules { st with cont := true }

/-- The while loop of connection_loop over the successfully parsed message
bodies of a connection, starting from no accumulated events. -/
def processLines (env : Env) (rules : List Rule) (msgs : List String) : LineState :=
  msgs.foldl (stepLine env rules) { cont := true, pubs := [], logs := [] }

/-- Actions that never write the output buffer (everything but Merge and
Replace). -/
def bufferWriter : Action → Bool
  | Action.merge _ => true
  | Action.replace _ => true
  | _ => false

/-- The action loop over an empty list returns the state unchanged. -/
@[simp] theorem execActions_nil (env : Env) (ctx : Ctx) (msg : String) (s : ExecState) :
    execActions env ctx msg s [] = s := rfl

/-- The action loop peels one action at a time, in order. -/
@[simp] theorem execActions_cons (env : Env) (ctx : Ctx) (msg : String) (s : ExecState)
    (a : Action) (l : List Action) :
    execActions env ctx msg s (a :: l) = execActions env ctx msg (execAction env ctx msg s a) l := rfl

/-- The action loop over a concatenation runs the two halves in sequence. -/
theorem execActions_append (env : Env) (ctx : Ctx) (msg : String) (s : ExecState)
    (l1 l2 : List Action) :
    execActions env ctx msg s (l1 ++ l2) = execActions env ctx msg (execActions env ctx msg s l1) l2 := by
  simp [execActions, List.foldl_append]

/-- No action ever sets a cleared continue_rules flag back to true. -/
theorem execAction_cont_false (env : Env) (ctx : Ctx) (msg : String) (s : ExecState)
    (a : Action) (h : s.cont = false) :
    (execAction env ctx msg s a).cont = false := by
  cases a with
  | forward t => rcases hr : env.render t ctx with _ | r <;> simp [execAction, hr, h]
  | merge j => rcases hp : env.parseJson msg with _ | v <;> simp [execAction, hp, h]
  | replace t => rcases hr : env.render t ctx with _ | r <;> simp [execAction, hr, h]
  | stop => simp [execAction]

/-- A cleared continue_rules flag survives any suffix of the action loop. -/
theorem execActions_cont_false (env : Env) (ctx : Ctx) (msg : String)
    (l : List Action) (s : ExecState) (h : s.cont = false) :
    (execActions env ctx msg s l).cont = false := by
  induction l generalizing s with
  | nil => exact h
  | cons a t ih => exact ih _ (execAction_cont_false env ctx msg s a h)

/-- Actions other than Merge and Replace leave the output buffer alone. -/
theorem execAction_output_of_not_writer (env : Env) (ctx : Ctx) (msg : String)
    (s : ExecState) (a : Action) (h : bufferWriter a = false) :
    (execAction env ctx msg s a).output = s.output := by
  cases a with
  | forward t => rcases hr : env.render t ctx with _ | r <;> simp [execAction, hr]
  | merge j => simp [bufferWriter] at h
  | replace t => simp [bufferWriter] at h
  | stop => simp [execAction]

/-- A run of actions none of which is Merge or Replace leaves the output
buffer alone. -/
theorem execActions_output_of_not_writer (env : Env) (ctx : Ctx) (msg : String)
    (l : List Action) (s : ExecState) (h : ∀ a ∈ l, bufferWriter a = false) :
    (execActions env ctx msg s l).output = s.output := by
  induction l generalizing s with
  | nil => rfl
  | cons a t ih =>
    rw [execActions_cons, ih _ (fun x hx => h x (List.mem_cons_of_mem a hx)),
      execAction_output_of_not_writer env ctx msg s a (h a (List.mem_cons_self a t))]

/-- A rule loop entered with a cleared flag returns at once (the break at
the top of the loop body). -/
theorem processRules_halt (env : Env) (msg : String) (rules : List Rule) (st : LineState)
    (h : st.cont = false) :
    processRules env msg rules st = st := by
  cases rules <;> simp [processRules, h]

/-- A rule that does not match is skipped: the loop state is untouched. -/
theorem processRules_cons_of_none (env : Env) (msg : String) (r : Rule) (rest : List Rule)
    (st : LineState) (h : matchRule r msg = none) :
    processRules env msg (r :: rest) st = processRules env msg rest st := by
  by_cases hc : st.cont = true
  · simp [processRules, hc, h]
  · have hcf : st.cont = false := by simpa using hc
    rw [processRules_halt env msg _ _ hcf, processRules_halt env msg _ _ hcf]

/-- A matching rule runs its action loop from a fresh empty buffer and the
loop proceeds to the remaining rules with the resulting flag and events. -/
theorem processRules_cons_of_match (env : Env) (msg : String) (r : Rule) (rest : List Rule)
    (st : LineState) (ctx : Ctx) (hc : st.cont = true) (h : matchRule r msg = some ctx) :
    processRules env msg (r :: rest) st
      = processRules env msg rest (postRule (execActions env ctx msg (ruleInit st) r.actions)) := by
  simp [processRules, hc, h]

/-- Pointwise description of the capture-insertion fold: a key ends up at
its captured value exactly when it is a declared group name whose capture
participated; every other key keeps its seed value. -/
theorem foldl_addCapture_apply (caps : String → Option String) (names : List (Option String))
    (init : Ctx) (k : String) :
    (names.foldl (addCapture caps) init) k =
      if some k ∈ names ∧ (caps k).isSome then caps k else init k := by
  induction names generalizing init with
  | nil => simp
  | cons n rest ih =>
    rw [List.foldl_cons, ih]
    cases n with
    | none => simp [addCapture, List.mem_cons]
    | some name =>
      by_cases hk : k = name
      · subst hk
        rcases hn : caps k with _ | v
        · simp [addCapture, hn]
        · simp [addCapture, hn, insertCtx]
      · rcases hn : caps name with _ | v
        · simp [addCapture, hn, hk]
        · simp [addCapture, hn, insertCtx, hk]

/-- Pointwise description of a matched rule's capture context. -/
theorem buildCtx_apply (msg : String) (names : List (Option String))
    (caps : String → Option String) (k : String) :
    buildCtx msg names caps k =
      if some k ∈ names ∧ (caps k).isSome then caps k
      else if k = reservedKey then some msg else none := by
  rw [buildCtx, foldl_addCapture_apply]
  simp [insertCtx]

/-- A key absent from an association list looks up to none. -/
theorem lookupKey_eq_none_of_not_mem (k : String) (l : List (String × JValue))
    (h : k ∉ l.map Prod.fst) :
    lookupKey k l = none := by
  induction l with
  | nil => rfl
  | cons p t ih =>
    obtain ⟨k1, v1⟩ := p
    simp only [List.map_cons, List.mem_cons, not_or] at h
    rw [lookupKey, if_neg (fun hk => h.1 hk.symm), ih h.2]

/-- Lookup after merging a single patch entry: the patched key holds the
recursively merged value (or the bare patch value when new); every other
key is untouched. -/
theorem lookupKey_mergeKey (a : List (String × JValue)) (k : String) (v : JValue) (q : String) :
    lookupKey q (mergeKey a k v)
      = if k = q then
          some (match lookupKey k a with | some va => merge va v | none => v)
        else lookupKey q a := by
  induction a with
  | nil =>
    by_cases hq : k = q
    · subst hq; simp [mergeKey, lookupKey]
    · simp [mergeKey, lookupKey, hq, fun h : q = k => hq h.symm]
  | cons p t ih =>
    obtain ⟨k1, v1⟩ := p
    rw [mergeKey]
    by_cases h1 : k1 = k
    · subst h1
      by_cases hq : k1 = q
      · subst hq; simp [lookupKey]
      · simp [lookupKey, hq, fun h : k1 = q => hq h]
    · rw [if_neg h1]
      by_cases hq : k1 = q
      · subst hq
        have hkq : ¬k = k1 := fun h => h1 h.symm
        simp [lookupKey, hkq]
      · simp [lookupKey, hq, ih, h1]

/-- Lookup after the full object merge, for a patch with unique keys:
shared keys hold the recursive merge, base-only keys their base value,
patch-only keys their patch value. -/
theorem lookupKey_mergeIntoList (a b : List (String × JValue))
    (hb : (b.map Prod.fst).Nodup) (q : String) :
    lookupKey q (mergeIntoList a b)
      = match lookupKey q a, lookupKey q b with
        | some va, some vb => some (merge va vb)
        | some va, none => some va
        | none, ob => ob := by
  induction b generalizing a with
  | nil =>
    rw [mergeIntoList]
    rcases hA : lookupKey q a with _ | va <;> simp [lookupKey, hA]
  | cons p rest ih =>
    obtain ⟨k, v⟩ := p
    rw [mergeIntoList]
    simp only [List.map_cons, List.nodup_cons] at hb
    rw [ih _ hb.2]
    by_cases hq : k = q
    · subst hq
      have hrest : lookupKey k rest = none := lookupKey_eq_none_of_not_mem _ _ hb.1
      rcases hA : lookupKey k a with _ | va <;>
        simp [lookupKey_mergeKey, lookupKey, hrest, hA]
    · simp [lookupKey_mergeKey, lookupKey, hq]

/-- A non-object patch replaces any base value outright. -/
theorem merge_of_not_obj (base p : JValue) (h : isObj p = false) : merge base p = p := by
  cases base <;> cases p <;> simp_all [merge, isObj]

/-- Two objects merge into the key-by-key merged object. -/
theorem merge_obj_obj (a b : List (String × JValue)) :
    merge (JValue.obj a) (JValue.obj b) = JValue.obj (mergeIntoList a b) := by
  simp [merge]

/-- When a matched rule's action loop ends with a cleared flag, the rule
loop over any remaining rules produces the same result as if the matched
rule were the last rule configured. -/
theorem processRules_cons_eq_single (env : Env) (msg : String) (r : Rule) (rest : List Rule)
    (st : LineState) (ctx : Ctx) (hm : matchRule r msg = some ctx)
    (h2 : (execActions env ctx msg (ruleInit st) r.actions).cont = false) :
    processRules env msg (r :: rest) st = processRules env msg [r] st := by
  by_cases hc : st.cont = true
  · rw [processRules_cons_of_match env msg r rest st ctx hc hm,
      processRules_cons_of_match env msg r [] st ctx hc hm,
      processRules_halt env msg rest _ h2]
    rfl
  · have hcf : st.cont = false := by simpa using hc
    rw [processRules_halt env msg _ _ hcf, processRules_halt env msg _ _ hcf]

/-- An always-empty capture lookup. -/
def emptyCtx : Ctx := fun _ => none

/-- A concrete capture lookup: one named group code captured the text 42. -/
def testCaps : String → Option String := fun n => if n = "code" then some "42" else none

/-- A concrete pattern that matches every input with one named group. -/
def matchAllRegex : Regex :=
  { capture_names := [none, some "code"], captures := fun _ => some testCaps }

/-- A concrete pattern that matches no input. -/
def noMatchRegex : Regex :=
  { capture_names := [none], captures := fun _ => none }

/-- A capture lookup whose only named group is the reserved key. -/
def msgCaps : String → Option String := fun n => if n = reservedKey then some "short" else none

/-- A concrete pattern with a named group called msg. -/
def msgRegex : Regex :=
  { capture_names := [none, some reservedKey], captures := fun _ => some msgCaps }

/-- A collaborator environment whose renderer echoes the template and whose
body parser always fails. -/
def okEnv : Env :=
  { render := fun t _ => some t, parseJson := fun _ => none, serialize := fun _ => "" }

/-- A collaborator environment whose renderer always fails. -/
def failEnv : Env :=
  { render := fun _ _ => none, parseJson := fun _ => none, serialize := fun _ => "" }

/-- A rule with a Stop action between two Replace actions. -/
def stopRule : Rule :=
  { field := Field.msg, regex := matchAllRegex,
    actions := [Action.replace "a", Action.stop, Action.replace "b"] }

/-- A rule whose first action is a Merge, followed by a Replace. -/
def mergeFailRule : Rule :=
  { field := Field.msg, regex := matchAllRegex,
    actions := [Action.merge (JValue.obj []), Action.replace "b"] }

/-- A matching rule with no actions. -/
def captureRule : Rule :=
  { field := Field.msg, regex := matchAllRegex, actions := [] }

/-- A rule whose pattern declares a group named msg. -/
def msgRule : Rule :=
  { field := Field.msg, regex := msgRegex, actions := [] }

/-- A rule whose pattern never matches. -/
def noMatchRule : Rule :=
  { field := Field.msg, regex := noMatchRegex, actions := [Action.stop] }

/-- A rule on an unsupported field selector. -/
def hostRule : Rule :=
  { field := Field.hostname, regex := matchAllRegex, actions := [Action.stop] }

/-- The capture context of matchAllRegex on the body m. -/
def ctx1 : Ctx := buildCtx "m" matchAllRegex.capture_names testCaps

/-- A fresh line state with no accumulated events. -/
def st1 : LineState := { cont := true, pubs := [], logs := [] }

/-- A fresh rule-execution state with no accumulated events. -/
def e1 : ExecState := { output := "", cont := true, pubs := [], logs := [] }

/-- C1: for every line and every rule whose action list contains a Stop
action, executing Stop sets the per-line continue flag to false, so that no
subsequent rule in the configured order is evaluated for that line, while
every action of the current rule configured before and after the Stop
still executes in its configured order. -/
theorem stop_halts_later_rules (env : Env) (msg : String) (r : Rule) (rest : List Rule)
    (ctx : Ctx) (as bs : List Action) (st : LineState)
    (hm : matchRule r msg = some ctx) (ha : r.actions = as ++ Action.stop :: bs) :
    (∀ s0 : ExecState,
        execActions env ctx msg s0 r.actions
          = execActions env ctx msg { execActions env ctx msg s0 as with cont := false } bs)
    ∧ (∀ s0 : ExecState, (execActions env ctx msg s0 r.actions).cont = false)
    ∧ processRules env msg (r :: rest) st = processRules env msg [r] st := by
  have h1 : ∀ s0 : ExecState,
      execActions env ctx msg s0 r.actions
        = execActions env ctx msg { execActions env ctx msg s0 as with cont := false } bs := by
    intro s0
    rw [ha, execActions_append, execActions_cons]
    rfl
  have h2 : ∀ s0 : ExecState, (execActions env ctx msg s0 r.actions).cont = false := by
    intro s0
    rw [h1 s0]
    exact execActions_cont_false env ctx msg bs _ rfl
  exact ⟨h1, h2, processRules_cons_eq_single env msg r rest st ctx hm (h2 _)⟩

/-- C1 witness at a concrete rule [Replace a, Stop, Replace b] followed by
a second copy of the same rule. -/
theorem stop_halts_later_rules_witness :
    matchRule stopRule "m" = some ctx1
    ∧ stopRule.actions = [Action.replace "a"] ++ Action.stop :: [Action.replace "b"]
    ∧ processRules okEnv "m" [stopRule, stopRule] st1 = processRules okEnv "m" [stopRule] st1
    ∧ (execActions okEnv ctx1 "m" e1 stopRule.actions).cont = false :=
  ⟨rfl, rfl,
    (stop_halts_later_rules okEnv "m" stopRule [stopRule] ctx1
      [Action.replace "a"] [Action.replace "b"] st1 rfl rfl).2.2,
    (stop_halts_later_rules okEnv "m" stopRule [stopRule] ctx1
      [Action.replace "a"] [Action.replace "b"] st1 rfl rfl).2.1 e1⟩

/-- C2: for every matched rule containing a Merge action, if parsing the
message body as structured data fails, the per-line continue flag is set to
false (subsequent rules are skipped for that line) and the error is logged,
but the current rule's OutputBuffer is left unchanged and the current
rule's remaining actions still execute. -/
theorem merge_parse_failure_halts_chain (env : Env) (msg : String) (r : Rule)
    (rest : List Rule) (ctx : Ctx) (j : JValue) (as bs : List Action) (st : LineState)
    (hp : env.parseJson msg = none)
    (hm : matchRule r msg = some ctx)
    (ha : r.actions = as ++ Action.merge j :: bs) :
    (∀ s : ExecState, execAction env ctx msg s (Action.merge j)
        = { s with cont := false, logs := s.logs ++ [LogEvent.mergeParseFailed msg] })
    ∧ (∀ s0 : ExecState, execActions env ctx msg s0 r.actions
        = execActions env ctx msg
            { execActions env ctx msg s0 as with
              cont := false,
              logs := (execActions env ctx msg s0 as).logs ++ [LogEvent.mergeParseFailed msg] } bs)
    ∧ (∀ s0 : ExecState, (execActions env ctx msg s0 r.actions).cont = false)
    ∧ processRules env msg (r :: rest) st = processRules env msg [r] st := by
  have h0 : ∀ s : ExecState, execAction env ctx msg s (Action.merge j)
      = { s with cont := false, logs := s.logs ++ [LogEvent.mergeParseFailed msg] } := by
    intro s; simp [execAction, hp]
  have h1 : ∀ s0 : ExecState, execActions env ctx msg s0 r.actions
      = execActions env ctx msg
          { execActions env ctx msg s0 as with
            cont := false,
            logs := (execActions env ctx msg s0 as).logs ++ [LogEvent.mergeParseFailed msg] } bs := by
    intro s0
    rw [ha, execActions_append, execActions_cons, h0]
  have h2 : ∀ s0 : ExecState, (execActions env ctx msg s0 r.actions).cont = false := by
    intro s0
    rw [h1 s0]
    exact execActions_cont_false env ctx msg bs _ rfl
  exact ⟨h0, h1, h2, processRules_cons_eq_single env msg r rest st ctx hm (h2 _)⟩

/-- C2 witness at a concrete rule [Merge, Replace b] whose body fails to
parse, followed by a second copy of the same rule. -/
theorem merge_parse_failure_halts_chain_witness :
    okEnv.parseJson "m" = none
    ∧ matchRule mergeFailRule "m" = some ctx1
    ∧ mergeFailRule.actions = [] ++ Action.merge (JValue.obj []) :: [Action.replace "b"]
    ∧ execAction okEnv ctx1 "m" e1 (Action.merge (JValue.obj []))
        = { e1 with cont := false, logs := e1.logs ++ [LogEvent.mergeParseFailed "m"] }
    ∧ processRules okEnv "m" [mergeFailRule, mergeFailRule] st1
        = processRules okEnv "m" [mergeFailRule] st1 :=
  ⟨rfl, rfl, rfl,
    (merge_parse_failure_halts_chain okEnv "m" mergeFailRule [mergeFailRule] ctx1
      (JValue.obj []) [] [Action.replace "b"] st1 rfl rfl rfl).1 e1,
    (merge_parse_failure_halts_chain okEnv "m" mergeFailRule [mergeFailRule] ctx1
      (JValue.obj []) [] [Action.replace "b"] st1 rfl rfl rfl).2.2.2⟩

/-- C3: for every incoming line, the per-line continue flag starts as true
regardless of the prior line's outcome, and for every rule evaluation
within a line the OutputBuffer starts as the empty string; the
OutputBuffer never carries contents from one rule's action execution into
the next rule's (the inter-rule state carries only the flag and the
accumulated events). -/
theorem fresh_state_per_line_and_rule (env : Env) (rules : List Rule) (r : Rule)
    (rest : List Rule) (msg : String) (ctx : Ctx) (st : LineState)
    (hm : matchRule r msg = some ctx) (hc : st.cont = true) :
    (∀ (msgs : List String) (m : String),
        processLines env rules (msgs ++ [m])
          = processRules env m rules { processLines env rules msgs with cont := true })
    ∧ processRules env msg (r :: rest) st
        = processRules env msg rest (postRule (execActions env ctx msg
            { output := "", cont := true, pubs := st.pubs, logs := st.logs } r.actions)) := by
  constructor
  · intro msgs m
    rw [processLines, List.foldl_append]
    rfl
  · rw [processRules_cons_of_match env msg r rest st ctx hc hm]
    have he : ruleInit st = { output := "", cont := true, pubs := st.pubs, logs := st.logs } := by
      simp [ruleInit, hc]
    rw [he]

/-- C3 witness: two concrete lines on one connection, and one concrete
matching rule evaluation. -/
theorem fresh_state_per_line_and_rule_witness :
    matchRule captureRule "m" = some ctx1
    ∧ st1.cont = true
    ∧ processLines okEnv [captureRule] (["m1"] ++ ["m2"])
        = processRules okEnv "m2" [captureRule]
            { processLines okEnv [captureRule] ["m1"] with cont := true }
    ∧ processRules okEnv "m" [captureRule] st1
        = processRules okEnv "m" [] (postRule (execActions okEnv ctx1 "m"
            { output := "", cont := true, pubs := st1.pubs, logs := st1.logs }
            captureRule.actions)) :=
  ⟨rfl, rfl,
    (fresh_state_per_line_and_rule okEnv [captureRule] captureRule [] "m" ctx1 st1
      rfl rfl).1 ["m1"] "m2",
    (fresh_state_per_line_and_rule okEnv [captureRule] captureRule [] "m" ctx1 st1
      rfl rfl).2⟩

/-- C4: for every rule whose pattern does not match the selected field (or
whose field selector is an unsupported variant), none of that rule's
actions execute and no capture context is constructed: the rule loop
passes its state through untouched. -/
theorem no_match_skips_rule (env : Env) (msg : String) (r : Rule) (rest : List Rule)
    (st : LineState) (hm : matchRule r msg = none) :
    processRules env msg (r :: rest) st = processRules env msg rest st
    ∧ (∀ (r2 : Rule) (m2 : String), r2.field ≠ Field.msg → matchRule r2 m2 = none) := by
  refine ⟨processRules_cons_of_none env msg r rest st hm, ?_⟩
  intro r2 m2 hf
  cases hF : r2.field with
  | msg => exact absurd hF hf
  | hostname => simp [matchRule, hF]
  | appname => simp [matchRule, hF]
  | procid => simp [matchRule, hF]

/-- C4 witness: a concrete non-matching rule is skipped, and a concrete
rule on the hostname selector never matches. -/
theorem no_match_skips_rule_witness :
    matchRule noMatchRule "m" = none
    ∧ hostRule.field ≠ Field.msg
    ∧ processRules okEnv "m" [noMatchRule, stopRule] st1 = processRules okEnv "m" [stopRule] st1
    ∧ matchRule hostRule "m" = none :=
  ⟨rfl, by simp [hostRule], (no_match_skips_rule okEnv "m" noMatchRule [stopRule] st1 rfl).1,
    (no_match_skips_rule okEnv "m" noMatchRule [stopRule] st1 rfl).2 hostRule "m"
      (by simp [hostRule])⟩

/-- C5: for every rule that matches, the capture context holds, besides an
entry always present at the reserved key, exactly one entry per named
capture group that participated in the match, keyed verbatim by the
declared group name; unnamed groups never appear as keys, and a named
group that did not capture is absent rather than present as an empty
string; the reserved entry holds the full body whenever no participating
group is itself named with the reserved key. -/
theorem capture_context_contents (r : Rule) (msg : String) (caps : String → Option String)
    (hf : r.field = Field.msg) (hc : r.regex.captures msg = some caps) :
    matchRule r msg = some (buildCtx msg r.regex.capture_names caps)
    ∧ (∀ k v, k ≠ reservedKey →
        (buildCtx msg r.regex.capture_names caps k = some v ↔
          some k ∈ r.regex.capture_names ∧ caps k = some v))
    ∧ ((some reservedKey ∈ r.regex.capture_names ∧ (caps reservedKey).isSome = true)
        ∨ buildCtx msg r.regex.capture_names caps reservedKey = some msg) := by
  refine ⟨by simp [matchRule, hf, hc], ?_, ?_⟩
  · intro k v hk
    rw [buildCtx_apply]
    by_cases hmem : some k ∈ r.regex.capture_names ∧ (caps k).isSome = true
    · rw [if_pos hmem]
      exact ⟨fun h => ⟨hmem.1, h⟩, fun h => h.2⟩
    · rw [if_neg hmem, if_neg hk]
      constructor
      · intro h; exact absurd h (by simp)
      · intro h; exact absurd ⟨h.1, by simp [h.2]⟩ hmem
  · by_cases hmem : some reservedKey ∈ r.regex.capture_names ∧ (caps reservedKey).isSome = true
    · exact Or.inl hmem
    · exact Or.inr (by rw [buildCtx_apply, if_neg hmem, if_pos rfl])

/-- C5 witness at a concrete matched rule with one named group code that
captured 42. -/
theorem capture_context_contents_witness :
    captureRule.field = Field.msg
    ∧ captureRule.regex.captures "m" = some testCaps
    ∧ matchRule captureRule "m" = some (buildCtx "m" captureRule.regex.capture_names testCaps)
    ∧ (buildCtx "m" captureRule.regex.capture_names testCaps "code" = some "42" ↔
        some "code" ∈ captureRule.regex.capture_names ∧ testCaps "code" = some "42")
    ∧ ((some reservedKey ∈ captureRule.regex.capture_names
          ∧ (testCaps reservedKey).isSome = true)
        ∨ buildCtx "m" captureRule.regex.capture_names testCaps reservedKey = some "m") :=
  ⟨rfl, rfl,
    (capture_context_contents captureRule "m" testCaps rfl rfl).1,
    (capture_context_contents captureRule "m" testCaps rfl rfl).2.1 "code" "42" (by decide),
    (capture_context_contents captureRule "m" testCaps rfl rfl).2.2⟩

/-- C10: for every matched rule whose pattern declares a named capture
group with the reserved name msg that participated in the match, the
captured value overwrites the reserved full-message-body entry in the
capture context, so that rule's templates see the captured substring
instead of the full body. -/
theorem msg_capture_overwrites_reserved (r : Rule) (msg v : String)
    (caps : String → Option String)
    (hf : r.field = Field.msg) (hc : r.regex.captures msg = some caps)
    (hn : some reservedKey ∈ r.regex.capture_names) (hv : caps reservedKey = some v) :
    matchRule r msg = some (buildCtx msg r.regex.capture_names caps)
    ∧ buildCtx msg r.regex.capture_names caps reservedKey = some v := by
  refine ⟨by simp [matchRule, hf, hc], ?_⟩
  rw [buildCtx_apply, if_pos ⟨hn, by simp [hv]⟩, hv]

/-- C10 witness at a concrete rule whose group named msg captured the text
short, while the full body is the distinct text m. -/
theorem msg_capture_overwrites_reserved_witness :
    msgRule.field = Field.msg
    ∧ msgRule.regex.captures "m" = some msgCaps
    ∧ some reservedKey ∈ msgRule.regex.capture_names
    ∧ msgCaps reservedKey = some "short"
    ∧ buildCtx "m" msgRule.regex.capture_names msgCaps reservedKey = some "short" :=
  ⟨rfl, rfl, by decide, rfl,
    (msg_capture_overwrites_reserved msgRule "m" "short" msgCaps rfl rfl (by decide) rfl).2⟩

/-- C6: for every base and patch value, when both are objects the merge
proceeds recursively key by key, with patch-only keys added, shared keys
recursively merged, and base-only keys preserved unchanged; when the patch
value is not an object (scalar, sequence, or null) it fully replaces the
base value, so merging the object holding a at the sequence 1,2 with the
object holding a at the sequence 3 yields a at the sequence 3, with no
element-wise merging of sequences. -/
theorem merge_object_and_replace_semantics (a b : List (String × JValue))
    (hb : (b.map Prod.fst).Nodup) :
    (∀ base p, isObj p = false → merge base p = p)
    ∧ merge (JValue.obj a) (JValue.obj b) = JValue.obj (mergeIntoList a b)
    ∧ (∀ q, lookupKey q (mergeIntoList a b)
        = match lookupKey q a, lookupKey q b with
          | some va, some vb => some (merge va vb)
          | some va, none => some va
          | none, ob => ob)
    ∧ merge (JValue.obj [("a", JValue.arr [JValue.num 1, JValue.num 2])])
            (JValue.obj [("a", JValue.arr [JValue.num 3])])
        = JValue.obj [("a", JValue.arr [JValue.num 3])] := by
  refine ⟨merge_of_not_obj, merge_obj_obj a b,
    fun q => lookupKey_mergeIntoList a b hb q, ?_⟩
  simp [merge, mergeIntoList, mergeKey]

/-- C6 witness at concrete objects sharing the key a with sequence values,
plus a base-only key x. -/
theorem merge_object_and_replace_semantics_witness :
    (([("a", JValue.arr [JValue.num 3])].map Prod.fst).Nodup)
    ∧ merge (JValue.obj [("x", JValue.num 7), ("a", JValue.arr [JValue.num 1, JValue.num 2])])
            (JValue.obj [("a", JValue.arr [JValue.num 3])])
        = JValue.obj (mergeIntoList
            [("x", JValue.num 7), ("a", JValue.arr [JValue.num 1, JValue.num 2])]
            [("a", JValue.arr [JValue.num 3])])
    ∧ lookupKey "x" (mergeIntoList
            [("x", JValue.num 7), ("a", JValue.arr [JValue.num 1, JValue.num 2])]
            [("a", JValue.arr [JValue.num 3])])
        = (match lookupKey "x" [("x", JValue.num 7), ("a", JValue.arr [JValue.num 1, JValue.num 2])],
                lookupKey "x" [("a", JValue.arr [JValue.num 3])] with
          | some va, some vb => some (merge va vb)
          | some va, none => some va
          | none, ob => ob)
    ∧ merge (JValue.obj [("a", JValue.arr [JValue.num 1, JValue.num 2])])
            (JValue.obj [("a", JValue.arr [JValue.num 3])])
        = JValue.obj [("a", JValue.arr [JValue.num 3])] :=
  ⟨by decide,
    (merge_object_and_replace_semantics
      [("x", JValue.num 7), ("a", JValue.arr [JValue.num 1, JValue.num 2])]
      [("a", JValue.arr [JValue.num 3])] (by decide)).2.1,
    (merge_object_and_replace_semantics
      [("x", JValue.num 7), ("a", JValue.arr [JValue.num 1, JValue.num 2])]
      [("a", JValue.arr [JValue.num 3])] (by decide)).2.2.1 "x",
    (merge_object_and_replace_semantics
      [("x", JValue.num 7), ("a", JValue.arr [JValue.num 1, JValue.num 2])]
      [("a", JValue.arr [JValue.num 3])] (by decide)).2.2.2⟩

/-- C7: for every Forward action whose topic template renders successfully,
the publish to the broker uses the rendered string as the topic name and
the current OutputBuffer contents as both the payload and the routing key;
in particular, if no prior Merge or Replace action in the same rule set
the buffer, the published payload is the empty string. -/
theorem forward_publishes_output_buffer (env : Env) (ctx : Ctx) (msg t rt : String)
    (hr : env.render t ctx = some rt) :
    (∀ s : ExecState, execAction env ctx msg s (Action.forward t)
        = { s with
            logs := s.logs ++ [LogEvent.forwardedTo rt],
            pubs := s.pubs ++ [{ topic := rt, payload := s.output, key := s.output }] })
    ∧ (∀ (as : List Action) (c : Bool) (pubs : List Published) (logs : List LogEvent),
        (∀ a ∈ as, bufferWriter a = false) →
        (execActions env ctx msg { output := "", cont := c, pubs := pubs, logs := logs }
            (as ++ [Action.forward t])).pubs
          = (execActions env ctx msg { output := "", cont := c, pubs := pubs, logs := logs }
              as).pubs
            ++ [{ topic := rt, payload := "", key := "" }]) := by
  have h0 : ∀ s : ExecState, execAction env ctx msg s (Action.forward t)
      = { s with
          logs := s.logs ++ [LogEvent.forwardedTo rt],
          pubs := s.pubs ++ [{ topic := rt, payload := s.output, key := s.output }] } := by
    intro s; simp [execAction, hr]
  refine ⟨h0, ?_⟩
  intro as c pubs logs hw
  rw [execActions_append, execActions_cons, execActions_nil, h0]
  rw [execActions_output_of_not_writer env ctx msg as _ hw]

/-- C7 witness: a concrete Forward whose only preceding action is a Stop,
publishing the empty payload under the rendered topic. -/
theorem forward_publishes_output_buffer_witness :
    okEnv.render "topic" emptyCtx = some "topic"
    ∧ execAction okEnv emptyCtx "m" e1 (Action.forward "topic")
        = { e1 with
            logs := e1.logs ++ [LogEvent.forwardedTo "topic"],
            pubs := e1.pubs ++ [{ topic := "topic", payload := e1.output, key := e1.output }] }
    ∧ (execActions okEnv emptyCtx "m" e1 ([Action.stop] ++ [Action.forward "topic"])).pubs
        = (execActions okEnv emptyCtx "m" e1 [Action.stop]).pubs
          ++ [{ topic := "topic", payload := "", key := "" }] :=
  ⟨rfl,
    (forward_publishes_output_buffer okEnv emptyCtx "m" "topic" "topic" rfl).1 e1,
    (forward_publishes_output_buffer okEnv emptyCtx "m" "topic" "topic" rfl).2
      [Action.stop] true [] [] (by decide)⟩

/-- C8 counterexample: in the source, a failed render of a Forward topic or
a Replace template takes the silent non-matching arm of an if-let with no
else branch, so nothing at all is logged; at a concrete failing renderer
the whole state, including the event log, is unchanged, refuting the
claim that the failure is logged. -/
theorem render_failure_not_logged_counterexample :
    failEnv.render "t" emptyCtx = none
    ∧ execAction failEnv emptyCtx "m" e1 (Action.forward "t") = e1
    ∧ (execAction failEnv emptyCtx "m" e1 (Action.forward "t")).logs = []
    ∧ execAction failEnv emptyCtx "m" e1 (Action.replace "t") = e1
    ∧ (execAction failEnv emptyCtx "m" e1 (Action.replace "t")).logs = [] :=
  ⟨rfl, rfl, rfl, rfl, rfl⟩

/-- C8 (amended): for every Forward or Replace action whose template
rendering fails, the action is a silent no-op, not logged and not fatal:
Forward publishes nothing, Replace leaves the OutputBuffer unchanged, the
state is entirely untouched, and all remaining actions of the current rule
and all remaining rules still run. -/
theorem render_failure_silent_noop (env : Env) (ctx : Ctx) (msg t : String)
    (hr : env.render t ctx = none) :
    (∀ s : ExecState, execAction env ctx msg s (Action.forward t) = s)
    ∧ (∀ s : ExecState, execAction env ctx msg s (Action.replace t) = s)
    ∧ (∀ (s : ExecState) (as bs : List Action),
        execActions env ctx msg s (as ++ Action.forward t :: bs)
          = execActions env ctx msg s (as ++ bs))
    ∧ (∀ (s : ExecState) (as bs : List Action),
        execActions env ctx msg s (as ++ Action.replace t :: bs)
          = execActions env ctx msg s (as ++ bs)) := by
  have h1 : ∀ s : ExecState, execAction env ctx msg s (Action.forward t) = s := by
    intro s; simp [execAction, hr]
  have h2 : ∀ s : ExecState, execAction env ctx msg s (Action.replace t) = s := by
    intro s; simp [execAction, hr]
  refine ⟨h1, h2, ?_, ?_⟩
  · intro s as bs
    rw [execActions_append, execActions_cons, h1, execActions_append]
  · intro s as bs
    rw [execActions_append, execActions_cons, h2, execActions_append]

/-- C8 witness: a concrete always-failing renderer, a Stop before the
failing action and a Replace after it. -/
theorem render_failure_silent_noop_witness :
    failEnv.render "t" emptyCtx = none
    ∧ execAction failEnv emptyCtx "m" e1 (Action.forward "t") = e1
    ∧ execAction failEnv emptyCtx "m" e1 (Action.replace "t") = e1
    ∧ execActions failEnv emptyCtx "m" e1 ([Action.stop] ++ Action.forward "t" :: [Action.replace "x"])
        = execActions failEnv emptyCtx "m" e1 ([Action.stop] ++ [Action.replace "x"]) :=
  ⟨rfl,
    (render_failure_silent_noop failEnv emptyCtx "m" "t" rfl).1 e1,
    (render_failure_silent_noop failEnv emptyCtx "m" "t" rfl).2.1 e1,
    (render_failure_silent_noop failEnv emptyCtx "m" "t" rfl).2.2.1 e1
      [Action.stop] [Action.replace "x"]⟩

/-- C9 counterexample: merging the empty-object patch into a non-object
base is not the identity: the match arm requiring both sides to be objects
fails, so the patch replaces the base, and the string base x becomes the
empty object. -/
theorem merge_empty_patch_counterexample :
    merge (JValue.str "x") (JValue.obj []) = JValue.obj []
    ∧ merge (JValue.str "x") (JValue.obj []) ≠ JValue.str "x" := by
  have h : merge (JValue.str "x") (JValue.obj []) = JValue.obj [] := by
    simp [merge]
  refine ⟨h, ?_⟩
  rw [h]
  intro hcon
  simp at hcon

/-- C9 (amended): merging an empty-object patch leaves the base unchanged
whenever the base is an object; a non-object base is instead replaced by
the empty object. -/
theorem merge_empty_patch_identity_on_objects (a : List (String × JValue)) :
    merge (JValue.obj a) (JValue.obj []) = JValue.obj a := by
  rw [merge_obj_obj]
  simp [mergeIntoList]

end Hotdog
